import Mathlib

/-!
Verification of the MNT6 bridge file `caml_mnt6_specific.cpp`.

The file under verification is a foreign-function bridge: it wires the
camlsnark entry points to the libsnark/libff pairing library.  The wrapped
library (curve arithmetic, Miller loop, final exponentiation, the
verification-key gadget) is not part of the sources; following the spec it
is modelled here as the cyclic-group pairing structure the spec describes,
instantiated at a small prime so that every definition is executable.  The
bridge functions themselves are translated statement by statement from the
source.
-/

/-- Modelled from the spec: the order r of the scalar field `Fr` and of the
groups G1, G2 and of the pairing subgroup of GT.  libff's MNT6 parameters are
not among the sources; the model instantiates the cyclic-group structure at
the prime r = 13. -/
abbrev scalarFieldOrder : ℕ := 13

/-- Modelled from the spec: the cardinality of the target extension field Fqk
of the model; its multiplicative group has order 52 = 4 * 13, so the
final-exponentiation exponent (q^k - 1)/r is 4. -/
abbrev fqkFieldCard : ℕ := 53

abbrev Fr := ZMod scalarFieldOrder

abbrev G1 := ZMod scalarFieldOrder

abbrev G2 := ZMod scalarFieldOrder

abbrev Fqk := ZMod fqkFieldCard

/-- Modelled from the spec: the final-exponentiation power (q^k - 1) / r. -/
abbrev finalExpPow : ℕ := 4

/-- Modelled from the spec: a fixed generator of the order-52 unit group of
the model's Fqk; unreduced Miller-loop values are modelled as its powers. -/
def fqkGen : Fqk := 2

/-- Modelled from the spec: the precomputation of a G1 point, a derived
read-only transform owned independently of the source point. -/
structure G1Precomp where
  point : G1
deriving DecidableEq

/-- Modelled from the spec: the precomputation of a G2 point. -/
structure G2Precomp where
  point : G2
deriving DecidableEq

def mnt6_ate_precompute_G1 (p : G1) : G1Precomp := ⟨p⟩

def mnt6_ate_precompute_G2 (q : G2) : G2Precomp := ⟨q⟩

/-- Modelled from the spec: one unreduced Miller loop; its output is the Fqk
unit `fqkGen` raised to the bilinear exponent of the two points. -/
def millerLoop (p : G1Precomp) (q : G2Precomp) : Fqk :=
  fqkGen ^ (p.point * q.point).val

/-- Modelled from the spec: the double Miller loop computes `e(a1,a2) *
e(b1,b2)` prior to final exponentiation, i.e. the Fqk product of the two
unreduced values. -/
def mnt6_ate_double_miller_loop (a1 : G1Precomp) (a2 : G2Precomp)
    (b1 : G1Precomp) (b2 : G2Precomp) : Fqk :=
  millerLoop a1 a2 * millerLoop b1 b2

/-- Modelled from the spec: the final exponentiation raises a Miller-loop
output to the power (q^k - 1)/r. -/
def mnt6_final_exponentiation (x : Fqk) : Fqk :=
  x ^ finalExpPow

/-- The multiplicative identity of GT.  GT elements are elements of the
target extension field and are compared by field equality. -/
def GTone : Fqk := 1

/-- Modelled from the spec: the pairing e : G1 x G2 -> GT, the final
exponentiation of a single Miller loop on the precomputed points. -/
def pairing (p : G1) (q : G2) : Fqk :=
  mnt6_final_exponentiation
    (millerLoop (mnt6_ate_precompute_G1 p) (mnt6_ate_precompute_G2 q))

/-- Translation of `camlsnark_mnt6_bg_proof_double_pairing_check`: negate the
G1 operand z, precompute all four operands, run the double Miller loop, apply
the final exponentiation, and compare the outcome with GT's one by field
equality. -/
def camlsnark_mnt6_bg_proof_double_pairing_check
    (ys : G1) (delta_prime : G2) (z : G1) (delta : G2) : Bool :=
  let lhs := mnt6_ate_double_miller_loop
    (mnt6_ate_precompute_G1 ys) (mnt6_ate_precompute_G2 delta_prime)
    (mnt6_ate_precompute_G1 (-z)) (mnt6_ate_precompute_G2 delta)
  let result := mnt6_final_exponentiation lhs
  decide (result = GTone)

/-- The reduced pairing value as a function of the product of the two cyclic
exponents: `expMap u = (fqkGen ^ finalExpPow) ^ u.val`. -/
def expMap (u : Fr) : Fqk :=
  (fqkGen ^ finalExpPow) ^ u.val

lemma gtGen_pow_orderKills (a : ℕ) :
    (fqkGen ^ finalExpPow : Fqk) ^ a
      = (fqkGen ^ finalExpPow) ^ (a % scalarFieldOrder) := by
  conv_lhs => rw [← Nat.div_add_mod a scalarFieldOrder]
  rw [pow_add, pow_mul]
  rw [show ((fqkGen ^ finalExpPow : Fqk) ^ scalarFieldOrder) = 1 by decide]
  rw [one_pow, one_mul]

lemma expMap_add (u v : Fr) : expMap (u + v) = expMap u * expMap v := by
  unfold expMap
  rw [ZMod.val_add, ← gtGen_pow_orderKills, pow_add]

lemma expMap_zero : expMap 0 = GTone := by decide

lemma expMap_injective : ∀ u v : Fr, expMap u = expMap v → u = v := by decide

lemma millerLoop_finalExp (a : G1) (b : G2) :
    millerLoop (mnt6_ate_precompute_G1 a) (mnt6_ate_precompute_G2 b)
        ^ finalExpPow = expMap (a * b) := by
  unfold millerLoop expMap mnt6_ate_precompute_G1 mnt6_ate_precompute_G2
  exact pow_right_comm _ _ _

lemma pairing_eq_expMap (p : G1) (q : G2) : pairing p q = expMap (p * q) := by
  unfold pairing mnt6_final_exponentiation
  exact millerLoop_finalExp p q

lemma check_eq_expMap (ys : G1) (delta_prime : G2) (z : G1) (delta : G2) :
    camlsnark_mnt6_bg_proof_double_pairing_check ys delta_prime z delta
      = decide (expMap (ys * delta_prime) * expMap (-z * delta) = GTone) := by
  simp only [camlsnark_mnt6_bg_proof_double_pairing_check,
    mnt6_final_exponentiation, mnt6_ate_double_miller_loop, mul_pow,
    millerLoop_finalExp]

/-- C1: `camlsnark_mnt6_bg_proof_double_pairing_check(ys, deltaPrime, z,
delta)` returns true iff `e(ys, deltaPrime) * e(-z, delta)` equals the
multiplicative identity of GT, and the result is computed by negating the G1
operand z before precomputation, running the double Miller loop on
(ys, deltaPrime, -z, delta), applying the final exponentiation and comparing
the outcome with GT's one by field equality. -/
theorem double_pairing_check_iff_product_one
    (ys : G1) (delta_prime : G2) (z : G1) (delta : G2) :
    (camlsnark_mnt6_bg_proof_double_pairing_check ys delta_prime z delta = true
      ↔ pairing ys delta_prime * pairing (-z) delta = GTone) ∧
    camlsnark_mnt6_bg_proof_double_pairing_check ys delta_prime z delta
      = decide (mnt6_final_exponentiation (mnt6_ate_double_miller_loop
          (mnt6_ate_precompute_G1 ys) (mnt6_ate_precompute_G2 delta_prime)
          (mnt6_ate_precompute_G1 (-z)) (mnt6_ate_precompute_G2 delta))
            = GTone) := by
  constructor
  · rw [check_eq_expMap, decide_eq_true_eq, pairing_eq_expMap,
      pairing_eq_expMap, neg_mul]
  · rfl

/-- C2: the folded single-product check decides the same predicate as
computing the two pairings separately and comparing them for equality. -/
theorem double_pairing_check_iff_pairings_equal
    (p : G1) (q : G2) (u : G1) (s : G2) :
    camlsnark_mnt6_bg_proof_double_pairing_check p q u s = true
      ↔ pairing p q = pairing u s := by
  rw [check_eq_expMap, decide_eq_true_eq, pairing_eq_expMap,
    pairing_eq_expMap, neg_mul, ← expMap_add]
  constructor
  · intro h
    have h2 : p * q + -(u * s) = 0 :=
      expMap_injective _ _ (h.trans expMap_zero.symm)
    exact congrArg expMap (add_neg_eq_zero.mp h2)
  · intro h
    have h2 : p * q = u * s := expMap_injective _ _ h
    rw [h2, add_neg_cancel, expMap_zero]

/-- The G1 group identity (point at infinity) of the model. -/
def G1identity : G1 := 0

/-- C8: the double pairing check accepts (identity, Q, identity, Q) for every
G2 point Q. -/
theorem double_pairing_check_identity_case :
    ∀ q : G2, camlsnark_mnt6_bg_proof_double_pairing_check
      G1identity q G1identity q = true := by decide

/-- The four point values reachable through the argument pointers of
`camlsnark_mnt6_bg_proof_double_pairing_check`. -/
structure PointStore where
  ys : G1
  deltaPrime : G2
  z : G1
  delta : G2
deriving DecidableEq

/-- Translation of the body of `camlsnark_mnt6_bg_proof_double_pairing_check`
as a transformer of the store holding the four pointed-to values: each
statement of the body copies or reads a value, and the negation -z builds a
new local value; no statement writes through the argument pointers, so the
store is returned unchanged next to the boolean result. -/
def runDoublePairingCheck (s : PointStore) : PointStore × Bool :=
  let ys := s.ys
  let deltaPrime := s.deltaPrime
  let z := s.z
  let delta := s.delta
  let lhs := mnt6_ate_double_miller_loop
    (mnt6_ate_precompute_G1 ys) (mnt6_ate_precompute_G2 deltaPrime)
    (mnt6_ate_precompute_G1 (-z)) (mnt6_ate_precompute_G2 delta)
  let result := mnt6_final_exponentiation lhs
  (s, decide (result = GTone))

/-- C9: the double pairing check leaves all four input points unchanged and
returns the same boolean as the pure check on the stored values. -/
theorem double_pairing_check_preserves_store (s : PointStore) :
    (runDoublePairingCheck s).1 = s ∧
    (runDoublePairingCheck s).2 = camlsnark_mnt6_bg_proof_double_pairing_check
      s.ys s.deltaPrime s.z s.delta :=
  ⟨rfl, rfl⟩

/-- C10: the double pairing check is deterministic; two invocations on
pointwise-equal point values return the same boolean. -/
theorem double_pairing_check_deterministic
    (ys1 : G1) (dp1 : G2) (z1 : G1) (dl1 : G2)
    (ys2 : G1) (dp2 : G2) (z2 : G1) (dl2 : G2)
    (hys : ys1 = ys2) (hdp : dp1 = dp2) (hz : z1 = z2) (hdl : dl1 = dl2) :
    camlsnark_mnt6_bg_proof_double_pairing_check ys1 dp1 z1 dl1
      = camlsnark_mnt6_bg_proof_double_pairing_check ys2 dp2 z2 dl2 := by
  rw [hys, hdp, hz, hdl]

theorem double_pairing_check_deterministic_witness :
    camlsnark_mnt6_bg_proof_double_pairing_check 1 2 3 4
      = camlsnark_mnt6_bg_proof_double_pairing_check 1 2 3 4 :=
  double_pairing_check_deterministic 1 2 3 4 1 2 3 4 rfl rfl rfl rfl

/-- The canonical fixed G1 base point of the model. -/
def G1generator : G1 := 1

/-- Translation of `camlsnark_mnt6_g1_of_field`: allocate a point, set it to
one (modelled from the spec: the group generator is the canonical fixed base
point for G1), and return the libff scalar product `k * g`, modelled from the
spec as the k-fold group sum of g. -/
def camlsnark_mnt6_g1_of_field (k : Fr) : G1 :=
  k.val • G1generator

/-- Modelled from the spec: binary double-and-add over the bit length of the
scalar. -/
def doubleAndAdd (n : ℕ) (p : G1) : G1 :=
  if h : n = 0 then 0
  else
    let half := doubleAndAdd (n / 2) p
    if n % 2 = 1 then half + half + p else half + half
termination_by n
decreasing_by exact Nat.div_lt_self (Nat.pos_of_ne_zero h) (by omega)

/-- Modelled from the spec: scalarMultiply computes `scalar . point` by
double-and-add over the point's representation. -/
def scalarMultiply (k : Fr) (p : G1) : G1 :=
  doubleAndAdd k.val p

lemma doubleAndAdd_eq_nsmul (n : ℕ) (p : G1) : doubleAndAdd n p = n • p := by
  induction n using Nat.strong_induction_on with
  | _ n ih =>
    rw [doubleAndAdd]
    by_cases h : n = 0
    · simp [h]
    · have ihn := ih (n / 2) (Nat.div_lt_self (Nat.pos_of_ne_zero h) (by omega))
      rw [dif_neg h]
      simp only [ihn]
      by_cases hm : n % 2 = 1
      · rw [if_pos hm, ← add_nsmul, ← succ_nsmul]
        congr 1
        omega
      · rw [if_neg hm, ← add_nsmul]
        congr 1
        omega

/-- C3: `camlsnark_mnt6_g1_of_field k` is exactly `scalarMultiply(k,
generator)`, and for k = 1 it returns the generator itself. -/
theorem of_field_eq_scalarMultiply_generator (k : Fr) :
    camlsnark_mnt6_g1_of_field k = scalarMultiply k G1generator ∧
    camlsnark_mnt6_g1_of_field 1 = G1generator := by
  constructor
  · rw [scalarMultiply, doubleAndAdd_eq_nsmul, camlsnark_mnt6_g1_of_field]
  · decide

/-- Modelled from the spec: the base field order q of the coordinate model. -/
abbrev baseFieldOrder : ℕ := 13

abbrev Fq := ZMod baseFieldOrder

/-- The libff bigint value of a base-field element, its canonical
representative. -/
def fqAsBigint (x : Fq) : ℕ := x.val

/-- Modelled from the spec: an element of the degree-3 extension field as an
ordered tuple of base-field coefficients, lowest degree first. -/
structure Fq3 where
  c0 : Fq
  c1 : Fq
  c2 : Fq
deriving DecidableEq

/-- Modelled from the spec: the coordinates of an extension-field element as
an ordered sequence, lowest-degree basis coefficient first. -/
def Fq3.coordinates (a : Fq3) : List Fq := [a.c0, a.c1, a.c2]

/-- Modelled from the spec: a G1 point is the distinguished point at infinity
(the group identity) or a coordinate pair over the base field. -/
inductive G1pt where
  | inf : G1pt
  | affine (x y : Fq) : G1pt
deriving DecidableEq

/-- Modelled from the spec: the stored X coordinate that the source accessor
reads unconditionally.  For the identity there is no affine X; the accessor
reads the representation's stored X (0), which the spec calls undefined
behavior. -/
def G1pt.storedX : G1pt → Fq
  | .inf => 0
  | .affine x _ => x

/-- Modelled from the spec: the stored Y coordinate, 1 for the identity's
stored representation. -/
def G1pt.storedY : G1pt → Fq
  | .inf => 1
  | .affine _ y => y

/-- Translation of `camlsnark_mnt6_g1_get_x`: unconditionally read X and
return its bigint value; the source has no failure path. -/
def camlsnark_mnt6_g1_get_x (g : G1pt) : ℕ :=
  fqAsBigint (G1pt.storedX g)

/-- Translation of `camlsnark_mnt6_g1_get_y`. -/
def camlsnark_mnt6_g1_get_y (g : G1pt) : ℕ :=
  fqAsBigint (G1pt.storedY g)

/-- Modelled from the spec: a G2 point, with extension-field coordinates. -/
inductive G2pt where
  | inf : G2pt
  | affine (x y : Fq3) : G2pt
deriving DecidableEq

def G2pt.storedX : G2pt → Fq3
  | .inf => ⟨0, 0, 0⟩
  | .affine x _ => x

def G2pt.storedY : G2pt → Fq3
  | .inf => ⟨1, 0, 0⟩
  | .affine _ y => y

/-- Translation of `camlsnark_mnt6_g2_get_x`: read the coordinates of the X
extension-field element and push each one's bigint value in order. -/
def camlsnark_mnt6_g2_get_x (g : G2pt) : List ℕ :=
  (G2pt.storedX g).coordinates.map fqAsBigint

/-- Translation of `camlsnark_mnt6_g2_get_y`. -/
def camlsnark_mnt6_g2_get_y (g : G2pt) : List ℕ :=
  (G2pt.storedY g).coordinates.map fqAsBigint

/-- The error taxonomy of the spec for coordinate access. -/
inductive PointError where
  | InvalidPoint : PointError
deriving DecidableEq

/-- The coordinate accessor as the spec mandates it: fails with InvalidPoint
when the point is the identity. -/
def g1GetXChecked : G1pt → Except PointError ℕ
  | .inf => .error .InvalidPoint
  | .affine x _ => .ok (fqAsBigint x)

/-- C6 (failing): the source coordinate accessors silently return coordinate
values on the identity element instead of failing with a typed InvalidPoint
error; the spec-mandated checked accessor diverges from them there. -/
theorem get_x_on_identity_returns_value_not_error :
    camlsnark_mnt6_g1_get_x G1pt.inf = 0 ∧
    camlsnark_mnt6_g1_get_y G1pt.inf = 1 ∧
    camlsnark_mnt6_g2_get_x G2pt.inf = [0, 0, 0] ∧
    g1GetXChecked G1pt.inf = Except.error PointError.InvalidPoint :=
  ⟨rfl, rfl, rfl, rfl⟩

/-- C7: on a non-identity G2 point, get_x and get_y return the corresponding
extension-field coordinate as the ordered list of its base-field
coefficients, lowest-degree coefficient first, of length 3 (the extension
degree). -/
theorem g2_coordinates_length_and_order (g : G2pt) (x y : Fq3)
    (h : g = G2pt.affine x y) :
    camlsnark_mnt6_g2_get_x g = [x.c0.val, x.c1.val, x.c2.val] ∧
    camlsnark_mnt6_g2_get_y g = [y.c0.val, y.c1.val, y.c2.val] ∧
    (camlsnark_mnt6_g2_get_x g).length = 3 ∧
    (camlsnark_mnt6_g2_get_y g).length = 3 := by
  subst h
  exact ⟨rfl, rfl, rfl, rfl⟩

theorem g2_coordinates_length_and_order_witness :
    camlsnark_mnt6_g2_get_x (G2pt.affine ⟨1, 2, 3⟩ ⟨4, 5, 6⟩)
        = [(1 : Fq).val, (2 : Fq).val, (3 : Fq).val] ∧
    camlsnark_mnt6_g2_get_y (G2pt.affine ⟨1, 2, 3⟩ ⟨4, 5, 6⟩)
        = [(4 : Fq).val, (5 : Fq).val, (6 : Fq).val] ∧
    (camlsnark_mnt6_g2_get_x (G2pt.affine ⟨1, 2, 3⟩ ⟨4, 5, 6⟩)).length = 3 ∧
    (camlsnark_mnt6_g2_get_y (G2pt.affine ⟨1, 2, 3⟩ ⟨4, 5, 6⟩)).length = 3 :=
  g2_coordinates_length_and_order (G2pt.affine ⟨1, 2, 3⟩ ⟨4, 5, 6⟩)
    ⟨1, 2, 3⟩ ⟨4, 5, 6⟩ rfl

/-- FieldT::size_in_bits of the model base field (13 needs 4 bits). -/
abbrev fieldSizeInBits : ℕ := 4

/-- Translation of `camlsnark_mnt6_emplace_bits_of_field`: append the
size_in_bits bits of x to v, emitting bit i of the bigint at offset i
(least-significant bit first). -/
def camlsnark_mnt6_emplace_bits_of_field (v : List Bool) (x : Fq) : List Bool :=
  v ++ (List.range fieldSizeInBits).map (fun i => Nat.testBit x.val i)

/-- Modelled from the spec: a verification key of the other curve, as the
ordered list of its field elements: the curve points' coordinates first, then
any scalar fields. -/
structure OtherVerificationKey where
  pointCoords : List Fq
  scalars : List Fq
deriving DecidableEq

/-- The field elements of a verification key in the fixed key-field order. -/
def vkFieldElements (vk : OtherVerificationKey) : List Fq :=
  vk.pointCoords ++ vk.scalars

/-- Modelled from the spec: libsnark's
`r1cs_ppzksnark_verification_key_variable::get_verification_key_bits`, which
emits the fixed-width bits of every field element of the key in the fixed
key-field order; the per-element step is the source's emplace routine. -/
def get_verification_key_bits (vk : OtherVerificationKey) : List Bool :=
  (vkFieldElements vk).foldl camlsnark_mnt6_emplace_bits_of_field []

/-- Translation of `camlsnark_mnt6_verification_key_other_to_bool_vector`. -/
def camlsnark_mnt6_verification_key_other_to_bool_vector
    (vk : OtherVerificationKey) : List Bool :=
  get_verification_key_bits vk

/-- The canonical bit serialization the spec describes: each field element as
its fixed-width binary representation, least-significant bit first within
each element (bit i at offset i), elements concatenated in the fixed
key-field order. -/
def canonicalBitSerialization (vk : OtherVerificationKey) : List Bool :=
  (vkFieldElements vk).flatMap
    (fun x => (List.range fieldSizeInBits).map (fun i => Nat.testBit x.val i))

lemma foldl_emplace (l : List Fq) (acc : List Bool) :
    l.foldl camlsnark_mnt6_emplace_bits_of_field acc
      = acc ++ l.flatMap
          (fun x => (List.range fieldSizeInBits).map
            (fun i => Nat.testBit x.val i)) := by
  induction l generalizing acc with
  | nil => simp
  | cons a t ih =>
    simp [camlsnark_mnt6_emplace_bits_of_field, ih]

/-- C5: the bool-vector encoding of a verification key is the canonical bit
serialization: fixed-width per element, least-significant bit first within
each element, elements in the fixed key-field order. -/
theorem bool_vector_eq_canonical_serialization (vk : OtherVerificationKey) :
    camlsnark_mnt6_verification_key_other_to_bool_vector vk
      = canonicalBitSerialization vk := by
  rw [camlsnark_mnt6_verification_key_other_to_bool_vector,
    get_verification_key_bits, canonicalBitSerialization, foldl_emplace,
    List.nil_append]

/-- Modelled from the spec: the packing capacity, in bits, of one field
element of the embedding circuit's native field (2^3 <= 13, so 3 bits fit). -/
abbrev capacity : ℕ := 3

/-- The value of a bit list read least-significant bit first. -/
def bitsToNat : List Bool → ℕ
  | [] => 0
  | b :: t => (if b then 1 else 0) + 2 * bitsToNat t

/-- Modelled from the spec: the packing applied by the verification-key
gadget's witness generation: consecutive chunks of `capacity` bits, each
chunk read as one field element of the circuit's native field, least
significant bit first. -/
def packBits : List Bool → List Fr
  | [] => []
  | [a] => [(bitsToNat [a] : Fr)]
  | [a, b] => [(bitsToNat [a, b] : Fr)]
  | a :: b :: c :: t => (bitsToNat [a, b, c] : Fr) :: packBits t

/-- Translation of `camlsnark_mnt6_verification_key_other_to_field_vector`,
modelled from the spec: the protoboard, the bit variables and the
verification-key variable gadget are not among the sources; per the spec the
read-back variable values are the key's bits packed into field elements under
the gadget's packing convention. -/
def camlsnark_mnt6_verification_key_other_to_field_vector
    (vk : OtherVerificationKey) : List Fr :=
  packBits (camlsnark_mnt6_verification_key_other_to_bool_vector vk)

/-- The `capacity` bits contributed by one packed field element, least
significant bit first. -/
def elementBits (e : Fr) : List Bool :=
  (List.range capacity).map (fun i => Nat.testBit e.val i)

/-- Unpacking under the gadget's packing convention: each field element
contributes `capacity` bits, least-significant bit first, truncated to the
total bit count. -/
def unpackFieldElements (els : List Fr) (total : ℕ) : List Bool :=
  (els.flatMap elementBits).take total

lemma unpack_packBits : ∀ bs : List Bool,
    unpackFieldElements (packBits bs) bs.length = bs
  | [] => rfl
  | [a] => by cases a <;> decide
  | [a, b] => by cases a <;> cases b <;> decide
  | a :: b :: c :: t => by
    have ih := unpack_packBits t
    have hchunk : elementBits ((bitsToNat [a, b, c] : ℕ) : Fr) = [a, b, c] := by
      cases a <;> cases b <;> cases c <;> decide
    unfold unpackFieldElements at ih ⊢
    show ((((bitsToNat [a, b, c] : ℕ) : Fr) :: packBits t).flatMap
      elementBits).take (a :: b :: c :: t).length = a :: b :: c :: t
    rw [List.flatMap_cons, hchunk]
    have hlen : (a :: b :: c :: t).length
        = ([a, b, c] : List Bool).length + t.length := by
      simp
      omega
    rw [hlen, List.take_append, ih]
    rfl

/-- C4: the field-element encoding of a verification key is bit-for-bit
consistent with its bit encoding under the gadget's packing convention:
unpacking the field elements yields exactly the bit sequence. -/
theorem field_vector_unpacks_to_bool_vector (vk : OtherVerificationKey) :
    unpackFieldElements
        (camlsnark_mnt6_verification_key_other_to_field_vector vk)
        (camlsnark_mnt6_verification_key_other_to_bool_vector vk).length
      = camlsnark_mnt6_verification_key_other_to_bool_vector vk := by
  rw [camlsnark_mnt6_verification_key_other_to_field_vector]
  exact unpack_packBits _
